import Mathlib

/-!
Verification of the inventory state-management core of
`src/inventory_system.py` (classes `InventoryDatabase`, `Product`,
`InventoryManager`).

Modelling conventions:
* The SQLite store is modelled as an explicit state `DB`: the `products`
  and `transactions` tables are lists in rowid (insertion) order, and the
  AUTOINCREMENT counters are carried explicitly.
* Python floats (the `price REAL` column) are modelled as exact rationals;
  Python ints as `Int`.  Timestamps (`datetime.now().isoformat()`) are
  modelled as a monotone `Nat` clock carried in the state: each call of
  `now()` reads the clock and advances it, which preserves exactly the
  ordering information the code uses (`ORDER BY date DESC`).
* Each manager method is a function from the state (plus its arguments) to
  its Python return value paired with the successor state.  The code never
  hits the `except` branches in this model because every SQL statement it
  issues succeeds on the modelled store (there are no constraint
  violations: the schema has no UNIQUE constraint on `name`).
* Python `round` rounds ties to the nearest even choice; `roundHalfEven`
  below models it on rationals.
-/

namespace InventorySystem

/-- Row of the `products` table (schema in `init_database`,
`inventory_system.py` lines 17-30). -/
structure Product where
  id : Int
  name : String
  description : String
  category : String
  price : ℚ
  quantity : Int
  min_stock : Int
  supplier : String
  created_date : Nat
  last_updated : Nat
deriving DecidableEq

/-- Row of the `transactions` table (schema lines 33-44). -/
structure Transaction where
  id : Int
  product_id : Int
  transaction_type : String
  quantity : Int
  price : ℚ
  date : Nat
  notes : String
deriving DecidableEq

/-- Joined row returned by `get_transaction_history` (`t.*, p.name as
product_name`, lines 209-224). -/
structure HistoryRow where
  id : Int
  product_id : Int
  transaction_type : String
  quantity : Int
  price : ℚ
  date : Nat
  notes : String
  product_name : String
deriving DecidableEq

/-- The SQLite database state: both tables in rowid order plus the
AUTOINCREMENT counters, and the wall clock used by `datetime.now()`. -/
structure DB where
  products : List Product
  transactions : List Transaction
  next_product_id : Int
  next_txn_id : Int
  clock : Nat
deriving DecidableEq

/-- Argument object of `add_product`: the Python `Product` class (lines
65-77).  Its constructor stamps `created_date` and `last_updated` itself,
so they arrive as data here. -/
structure ProductInput where
  name : String
  description : String
  category : String
  price : ℚ
  quantity : Int
  min_stock : Int
  supplier : String
  created_date : Nat
  last_updated : Nat
deriving DecidableEq

/-- Keyword arguments of `update_product` (lines 121-146), restricted to
the `valid_fields` allow-list `['name', 'description', 'category',
'price', 'quantity', 'min_stock', 'supplier']`; keys outside the list are
dropped by the `field in valid_fields` check before they reach the query,
so they are not represented.  `none` means the key was not supplied. -/
structure UpdateFields where
  name : Option String
  description : Option String
  category : Option String
  price : Option ℚ
  quantity : Option Int
  min_stock : Option Int
  supplier : Option String
deriving DecidableEq

/-- Python `if not updates` (line 134): true when no valid field was
supplied. -/
def UpdateFields.isEmpty (f : UpdateFields) : Bool :=
  f.name.isNone && f.description.isNone && f.category.isNone &&
  f.price.isNone && f.quantity.isNone && f.min_stock.isNone && f.supplier.isNone

/-- The SET clause built at lines 129-138: each supplied field overwrites
the column, and `last_updated` is always set to `datetime.now()`. -/
def applyFields (p : Product) (f : UpdateFields) (now : Nat) : Product :=
  { p with
    name := f.name.getD p.name
    description := f.description.getD p.description
    category := f.category.getD p.category
    price := f.price.getD p.price
    quantity := f.quantity.getD p.quantity
    min_stock := f.min_stock.getD p.min_stock
    supplier := f.supplier.getD p.supplier
    last_updated := now }

/-- SELECT * FROM products ORDER BY name (`get_all_products`, lines
104-107). -/
def get_all_products (st : DB) : List Product :=
  List.insertionSort (fun p q : Product => p.name ≤ q.name) st.products

/-- SELECT * FROM products WHERE id = ? then `results[0] if results else
None` (`get_product_by_id`, lines 109-113). -/
def get_product_by_id (st : DB) (product_id : Int) : Option Product :=
  (st.products.filter (fun p => p.id == product_id)).head?

/-- SELECT * FROM products WHERE name = ? then first row or None
(`get_product_by_name`, lines 115-119). -/
def get_product_by_name (st : DB) (name : String) : Option Product :=
  (st.products.filter (fun p => p.name == name)).head?

/-- INSERT INTO transactions (`_log_transaction`, lines 226-235); the
`date` column is `datetime.now()`. -/
def log_transaction (st : DB) (product_id : Int) (transaction_type : String)
    (quantity : Int) (price : ℚ) (notes : String) : DB :=
  { st with
    transactions := st.transactions ++
      [⟨st.next_txn_id, product_id, transaction_type, quantity, price, st.clock, notes⟩]
    next_txn_id := st.next_txn_id + 1
    clock := st.clock + 1 }

/-- Method `add_product` (lines 83-102): INSERT the row (no duplicate
check — the schema has no UNIQUE constraint on `name`, so the INSERT
succeeds even when the name already exists), then look the name up again
and log an INITIAL_STOCK transaction against the id found (the first row
in rowid order with that name).  Returns True; the `except` branch is
unreachable on the modelled store. -/
def add_product (st : DB) (product : ProductInput) : Bool × DB :=
  let row : Product :=
    ⟨st.next_product_id, product.name, product.description, product.category,
     product.price, product.quantity, product.min_stock, product.supplier,
     product.created_date, product.last_updated⟩
  let st1 : DB := { st with
    products := st.products ++ [row]
    next_product_id := st.next_product_id + 1 }
  match get_product_by_name st1 product.name with
  | some q =>
      (true, log_transaction st1 q.id "INITIAL_STOCK" product.quantity product.price
        ("Initial stock for " ++ product.name))
  | none => (false, st1)

/-- Method `update_product` (lines 121-146): if no valid field was
supplied return False; otherwise run
UPDATE products SET ... , last_updated = now WHERE id = ?
and return True — even when no row has that id (the UPDATE then affects
zero rows and the method still returns True). -/
def update_product (st : DB) (product_id : Int) (f : UpdateFields) : Bool × DB :=
  if f.isEmpty then (false, st)
  else
    (true,
      { st with
        products := st.products.map
          (fun p => if p.id == product_id then applyFields p f st.clock else p)
        clock := st.clock + 1 })

/-- Method `delete_product` (lines 148-156): DELETE FROM products WHERE
id = ?; always returns True; transactions are not touched (no cascade). -/
def delete_product (st : DB) (product_id : Int) : Bool × DB :=
  (true, { st with products := st.products.filter (fun p => !(p.id == product_id)) })

/-- Shorthand for the kwargs `quantity=new_quantity` used by the stock
operations at lines 166 and 185. -/
def quantityOnly (q : Int) : UpdateFields :=
  ⟨none, none, none, none, some q, none, none⟩

/-- Method `add_stock` (lines 158-171): look the product up; if absent
return False; otherwise set quantity to current + delta through
`update_product` (no positivity check on the delta anywhere) and log a
STOCK_IN transaction. -/
def add_stock (st : DB) (product_id : Int) (quantity : Int) (price : ℚ)
    (notes : String) : Bool × DB :=
  match get_product_by_id st product_id with
  | none => (false, st)
  | some product =>
      let new_quantity := product.quantity + quantity
      let st1 := (update_product st product_id (quantityOnly new_quantity)).2
      (true, log_transaction st1 product_id "STOCK_IN" quantity price notes)

/-- Method `remove_stock` (lines 173-190): look the product up; if absent
return False; if current quantity < delta print the insufficient-stock
message and return False before any write; otherwise set quantity to
current - delta and log a STOCK_OUT transaction.  As for `add_stock`
there is no positivity check on the delta. -/
def remove_stock (st : DB) (product_id : Int) (quantity : Int) (price : ℚ)
    (notes : String) : Bool × DB :=
  match get_product_by_id st product_id with
  | none => (false, st)
  | some product =>
      if product.quantity < quantity then (false, st)
      else
        let new_quantity := product.quantity - quantity
        let st1 := (update_product st product_id (quantityOnly new_quantity)).2
        (true, log_transaction st1 product_id "STOCK_OUT" quantity price notes)

/-- SELECT * FROM products WHERE quantity <= min_stock
(`get_low_stock_products`, lines 192-195), in rowid order (no ORDER BY). -/
def get_low_stock_products (st : DB) : List Product :=
  st.products.filter (fun p => decide (p.quantity ≤ p.min_stock))

/-- The inner join `FROM transactions t JOIN products p ON t.product_id =
p.id` of `get_transaction_history`: a transaction yields one row per
product whose id matches it, so a transaction whose product was deleted
yields no row at all. -/
def joinHistory (st : DB) : List HistoryRow :=
  st.transactions.flatMap (fun t =>
    (st.products.filter (fun p => p.id == t.product_id)).map (fun p =>
      ⟨t.id, t.product_id, t.transaction_type, t.quantity, t.price, t.date, t.notes, p.name⟩))

/-- ORDER BY t.date DESC of `get_transaction_history`. -/
def sortByDateDesc (l : List HistoryRow) : List HistoryRow :=
  List.insertionSort (fun a b : HistoryRow => b.date ≤ a.date) l

/-- Method `get_transaction_history` (lines 206-224).  The Python guard is
`if product_id:`, which is False both for `None` (the default) and for the
integer 0, so a caller passing 0 gets the unfiltered query. -/
def get_transaction_history (st : DB) (product_id : Option Int) : List HistoryRow :=
  match product_id with
  | some pid =>
      if pid = 0 then sortByDateDesc (joinHistory st)
      else sortByDateDesc ((joinHistory st).filter (fun r => r.product_id == pid))
  | none => sortByDateDesc (joinHistory st)

/-- Python `round` on the scale of two decimal digits: round to the
nearest multiple of 1/100, ties to the even multiple (the documented
behaviour of the built-in `round`). -/
def roundHalfEven (x : ℚ) : ℤ :=
  let n := ⌊x⌋
  let r := x - n
  if r < 1/2 then n
  else if 1/2 < r then n + 1
  else if n % 2 = 0 then n else n + 1

/-- The `round(total_value, 2)` call at line 255. -/
def round2 (x : ℚ) : ℚ := (roundHalfEven (x * 100) : ℚ) / 100

/-- Value entry of the `categories` dict of the report: `{'count': 0,
'value': 0}` then incremented (lines 248-251). -/
structure CategoryData where
  count : Int
  value : ℚ
deriving DecidableEq

/-- Python `product['category'] or 'Uncategorized'` (line 247): the empty
string is falsy, so it is displayed under the `Uncategorized` bucket. -/
def bucketOf (p : Product) : String :=
  if p.category = "" then "Uncategorized" else p.category

/-- Lines 248-249: `if category not in categories: categories[category] =
{'count': 0, 'value': 0}`.  The dict is modelled as an association list in
insertion order, as Python dicts are ordered. -/
def ensureCategory (cats : List (String × CategoryData)) (c : String) :
    List (String × CategoryData) :=
  if cats.any (fun e => e.1 == c) then cats else cats ++ [(c, ⟨0, 0⟩)]

/-- Lines 250-251: increment the count and add `price * quantity` to the
value of the bucket. -/
def bumpCategory (cats : List (String × CategoryData)) (c : String) (v : ℚ) :
    List (String × CategoryData) :=
  (ensureCategory cats c).map (fun e => if e.1 == c then (e.1, ⟨e.2.count + 1, e.2.value + v⟩) else e)

/-- Return value of `generate_inventory_report` (lines 253-259). -/
structure Report where
  total_products : Nat
  total_inventory_value : ℚ
  low_stock_count : Nat
  categories : List (String × CategoryData)
  low_stock_products : List Product
deriving DecidableEq

/-- Method `generate_inventory_report` (lines 237-259): the grand total is
rounded to two decimals; the per-category values are accumulated and
returned without any rounding. -/
def generate_inventory_report (st : DB) : Report :=
  let products := get_all_products st
  let low_stock := get_low_stock_products st
  let total_value := (products.map (fun p => p.price * (p.quantity : ℚ))).sum
  let categories := products.foldl
    (fun cats p => bumpCategory cats (bucketOf p) (p.price * (p.quantity : ℚ))) []
  { total_products := products.length
    total_inventory_value := round2 total_value
    low_stock_count := low_stock.length
    categories := categories
    low_stock_products := low_stock }

/-- Sum of price times quantity over a list of product rows, stated over
the raw table (order-independent by commutativity). -/
def sumValue (l : List Product) : ℚ :=
  (l.map (fun p => p.price * (p.quantity : ℚ))).sum

/-- Sum of price times quantity restricted to the rows of one report
bucket. -/
def catSum (l : List Product) (c : String) : ℚ :=
  ((l.filter (fun p => bucketOf p == c)).map (fun p => p.price * (p.quantity : ℚ))).sum

/-- Modelled from the spec: rounding to 2 decimal places with "standard
half-up rounding" (spec section 4.3), for comparison with the rounding the
code performs.  Half-up sends a tie to the larger multiple. -/
def spec_round2_half_up (x : ℚ) : ℚ := ((⌊x * 100 + 1/2⌋ : ℤ) : ℚ) / 100

/-!  General helper lemmas about the list-level reading of the SQL
statements. -/

/-- Updating exactly the rows a predicate selects commutes with selecting
the first such row, provided the update preserves the predicate. -/
theorem head_filter_map {α : Type} (pb : α → Bool) (g : α → α)
    (hg : ∀ a, pb (g a) = pb a) :
    ∀ l : List α,
      ((l.map (fun a => if pb a then g a else a)).filter pb).head?
        = ((l.filter pb).head?).map g := by
  intro l
  induction l with
  | nil => rfl
  | cons a l ih =>
      by_cases h : pb a = true
      · simp [List.filter_cons, h, hg]
      · simp only [Bool.not_eq_true] at h
        simp [List.filter_cons, h, hg, ih]

/-- A conditional row update touches nothing when no row satisfies the
predicate. -/
theorem map_update_of_absent (pid : Int) (g : Product → Product) :
    ∀ l : List Product, (∀ a ∈ l, (a.id == pid) = false) →
      l.map (fun p => if p.id = pid then g p else p) = l := by
  intro l
  induction l with
  | nil => intro _; rfl
  | cons a l ih =>
      intro h
      have ha : ¬ a.id = pid := by simpa using h a (List.mem_cons_self a l)
      simp [ha, ih (fun b hb => h b (List.mem_cons_of_mem a hb))]

/-- The UPDATE issued by `update_product` preserves the `id` column, so
looking the same id up afterwards returns the updated image of whatever
row the lookup returned before. -/
theorem head_filter_applyFields (l : List Product) (pid : Int) (f : UpdateFields) (now : Nat) :
    ((l.map (fun r => if r.id == pid then applyFields r f now else r)).filter
        (fun r => r.id == pid)).head?
      = ((l.filter (fun r => r.id == pid)).head?).map (fun r => applyFields r f now) :=
  head_filter_map (fun r => r.id == pid) (fun r => applyFields r f now) (fun _ => rfl) l

/-- Unfolding of a successful `add_stock` call: the exact successor state,
with the one STOCK_IN ledger entry it appends. -/
theorem add_stock_eq (st : DB) (pid : Int) (p : Product) (q : Int) (pr : ℚ) (n : String)
    (hp : get_product_by_id st pid = some p) :
    add_stock st pid q pr n =
      (true,
        { products := st.products.map
            (fun r => if r.id == pid then applyFields r (quantityOnly (p.quantity + q)) st.clock else r)
          transactions := st.transactions ++
            [⟨st.next_txn_id, pid, "STOCK_IN", q, pr, st.clock + 1, n⟩]
          next_product_id := st.next_product_id
          next_txn_id := st.next_txn_id + 1
          clock := st.clock + 2 }) := by
  simp [add_stock, hp, update_product, quantityOnly, UpdateFields.isEmpty, log_transaction]

/-- Unfolding of a successful `remove_stock` call. -/
theorem remove_stock_eq (st : DB) (pid : Int) (p : Product) (q : Int) (pr : ℚ) (n : String)
    (hp : get_product_by_id st pid = some p) (hge : ¬ p.quantity < q) :
    remove_stock st pid q pr n =
      (true,
        { products := st.products.map
            (fun r => if r.id == pid then applyFields r (quantityOnly (p.quantity - q)) st.clock else r)
          transactions := st.transactions ++
            [⟨st.next_txn_id, pid, "STOCK_OUT", q, pr, st.clock + 1, n⟩]
          next_product_id := st.next_product_id
          next_txn_id := st.next_txn_id + 1
          clock := st.clock + 2 }) := by
  simp [remove_stock, hp, hge, update_product, quantityOnly, UpdateFields.isEmpty, log_transaction]

/-- C6: for every existing product with current quantity q and every OUT
adjustment of delta strictly above q, `remove_stock` returns False from
its insufficient-stock branch and the state is unchanged: the quantity is
untouched and no ledger entry is appended (no partial fulfillment). -/
theorem c6_remove_stock_insufficient (st : DB) (pid : Int) (p : Product) (delta : Int)
    (pr : ℚ) (n : String)
    (hp : get_product_by_id st pid = some p) (hlt : p.quantity < delta) :
    remove_stock st pid delta pr n = (false, st) := by
  simp [remove_stock, hp, hlt]

def stW6 : DB := ⟨[⟨1, "a", "", "", 0, 5, 10, "", 0, 0⟩], [], 2, 1, 0⟩

/-- Witness for C6 at a concrete state: one product with quantity 5, OUT
request of 9. -/
theorem c6_witness : remove_stock stW6 1 9 0 "" = (false, stW6) :=
  c6_remove_stock_insufficient stW6 1 ⟨1, "a", "", "", 0, 5, 10, "", 0, 0⟩ 9 0 ""
    (by decide) (by decide)

/-- Looking an id up after the conditional row update of `update_product`
returns the updated image of the previously found row. -/
theorem head_filter_after_update (st : DB) (pid : Int) (p : Product) (f : UpdateFields)
    (now : Nat) (hp : get_product_by_id st pid = some p) :
    ((st.products.map (fun r => if r.id == pid then applyFields r f now else r)).filter
        (fun r => r.id == pid)).head? = some (applyFields p f now) := by
  rw [head_filter_applyFields]
  simp only [get_product_by_id] at hp
  rw [hp]
  rfl

/-- C1 amended: `add_product` performs no duplicate-name check (there is
no UNIQUE constraint on `name` and the manager never looks before
inserting), so a request whose name equals an existing live product's
name succeeds (returns True) and appends a second product row carrying
the duplicate name.  In the source the duplicate guard lives in the front
end (`add_product_ui`, lines 292-295), which queries `get_product_by_name`
before calling the manager. -/
theorem c1_add_product_duplicate_succeeds (st : DB) (inp : ProductInput) (q : Product)
    (hq : q ∈ st.products) (hname : q.name = inp.name) :
    (add_product st inp).1 = true ∧
    (add_product st inp).2.products = st.products ++
      [⟨st.next_product_id, inp.name, inp.description, inp.category, inp.price,
        inp.quantity, inp.min_stock, inp.supplier, inp.created_date, inp.last_updated⟩] := by
  cases hfe : st.products.filter (fun p => p.name == inp.name) with
  | nil =>
      exfalso
      have hnil := List.filter_eq_nil_iff.1 hfe q hq
      simp [hname] at hnil
  | cons a as =>
      constructor
      · simp [add_product, get_product_by_name, List.filter_append, hfe, log_transaction]
      · simp [add_product, get_product_by_name, List.filter_append, hfe, log_transaction]

def stC1 : DB := ⟨[⟨1, "a", "", "", 0, 5, 10, "", 0, 0⟩], [], 2, 1, 0⟩

/-- Counterexample to C1 as stated: on a store already holding a product
named "a", adding another product named "a" returns True and the products
table grows to two rows, instead of failing with no new row. -/
theorem c1_counterexample :
    (add_product stC1 ⟨"a", "", "", 0, 3, 10, "", 0, 0⟩).1 = true ∧
    (add_product stC1 ⟨"a", "", "", 0, 3, 10, "", 0, 0⟩).2.products.length = 2 := by
  decide

/-- Witness for C1 amended at the same concrete duplicate request. -/
theorem c1_witness :
    (add_product stC1 ⟨"a", "", "", 0, 3, 10, "", 0, 0⟩).1 = true ∧
    (add_product stC1 ⟨"a", "", "", 0, 3, 10, "", 0, 0⟩).2.products = stC1.products ++
      [⟨2, "a", "", "", 0, 3, 10, "", 0, 0⟩] :=
  c1_add_product_duplicate_succeeds stC1 ⟨"a", "", "", 0, 3, 10, "", 0, 0⟩
    ⟨1, "a", "", "", 0, 5, 10, "", 0, 0⟩ (by decide) (by decide)

/-- C2 amended: the stock operations perform no positivity check on the
delta.  On an existing product (with the non-negative quantity the data
model guarantees), `add_stock` with any delta at most 0 returns True,
changes the quantity to current + delta and appends a STOCK_IN ledger
entry; `remove_stock` with such a delta passes its only guard (current
quantity < delta is false), returns True, changes the quantity to
current - delta and appends a STOCK_OUT ledger entry. -/
theorem c2_no_delta_validation (st : DB) (pid : Int) (p : Product) (delta : Int)
    (pr : ℚ) (n : String)
    (hp : get_product_by_id st pid = some p) (hd : delta ≤ 0) (hq : 0 ≤ p.quantity) :
    ((add_stock st pid delta pr n).1 = true ∧
     (add_stock st pid delta pr n).2.transactions
       = st.transactions ++ [⟨st.next_txn_id, pid, "STOCK_IN", delta, pr, st.clock + 1, n⟩] ∧
     (∃ p', get_product_by_id (add_stock st pid delta pr n).2 pid = some p' ∧
        p'.quantity = p.quantity + delta)) ∧
    ((remove_stock st pid delta pr n).1 = true ∧
     (remove_stock st pid delta pr n).2.transactions
       = st.transactions ++ [⟨st.next_txn_id, pid, "STOCK_OUT", delta, pr, st.clock + 1, n⟩] ∧
     (∃ p', get_product_by_id (remove_stock st pid delta pr n).2 pid = some p' ∧
        p'.quantity = p.quantity - delta)) := by
  have hge : ¬ p.quantity < delta := by omega
  rw [add_stock_eq st pid p delta pr n hp, remove_stock_eq st pid p delta pr n hp hge]
  refine ⟨⟨rfl, rfl, ⟨applyFields p (quantityOnly (p.quantity + delta)) st.clock, ?_, rfl⟩⟩,
          ⟨rfl, rfl, ⟨applyFields p (quantityOnly (p.quantity - delta)) st.clock, ?_, rfl⟩⟩⟩
  · exact head_filter_after_update st pid p _ st.clock hp
  · exact head_filter_after_update st pid p _ st.clock hp

def stC2 : DB := ⟨[⟨1, "a", "", "", 0, 5, 10, "", 0, 0⟩], [], 2, 1, 0⟩

/-- Counterexample to C2 as stated: on a product with quantity 5, an IN
adjustment with delta -1 returns True, appends a ledger entry and changes
the quantity to 4, instead of failing with no write. -/
theorem c2_counterexample :
    (add_stock stC2 1 (-1) 0 "").1 = true ∧
    (add_stock stC2 1 (-1) 0 "").2.transactions.length = 1 ∧
    (add_stock stC2 1 (-1) 0 "").2.products.map (fun p => p.quantity) = [4] := by
  decide

/-- Witness for C2 amended at delta 0 on the same concrete state. -/
theorem c2_witness :
    (add_stock stC2 1 0 0 "").1 = true ∧ (remove_stock stC2 1 0 0 "").1 = true :=
  ⟨(c2_no_delta_validation stC2 1 ⟨1, "a", "", "", 0, 5, 10, "", 0, 0⟩ 0 0 ""
      (by decide) (by decide) (by decide)).1.1,
   (c2_no_delta_validation stC2 1 ⟨1, "a", "", "", 0, 5, 10, "", 0, 0⟩ 0 0 ""
      (by decide) (by decide) (by decide)).2.1⟩

/-- C3 amended: quantity is in `update_product`'s `valid_fields`
allow-list, so the generic update path does change the product's quantity
when that key is supplied, and it writes no ledger entry while doing so
(indeed the stock operations themselves route their quantity write
through this path). -/
theorem c3_update_can_change_quantity (st : DB) (pid : Int) (p : Product) (q : Int)
    (hp : get_product_by_id st pid = some p) :
    (update_product st pid (quantityOnly q)).1 = true ∧
    (∃ p', get_product_by_id (update_product st pid (quantityOnly q)).2 pid = some p' ∧
       p'.quantity = q) ∧
    (update_product st pid (quantityOnly q)).2.transactions = st.transactions := by
  have hf : (quantityOnly q).isEmpty = false := rfl
  refine ⟨by simp [update_product, hf], ⟨applyFields p (quantityOnly q) st.clock, ?_, rfl⟩,
    by simp [update_product, hf]⟩
  have hpr : (update_product st pid (quantityOnly q)).2.products
      = st.products.map (fun r => if r.id == pid then applyFields r (quantityOnly q) st.clock else r) := by
    simp [update_product, hf]
  simp only [get_product_by_id, hpr]
  exact head_filter_after_update st pid p _ st.clock hp

def stC3 : DB := ⟨[⟨1, "a", "", "", 0, 5, 10, "", 0, 0⟩], [], 2, 1, 0⟩

/-- Counterexample to C3 as stated: on a product with quantity 5,
`update_product` supplied only with the quantity field changes the stored
quantity to 99 and appends no ledger entry. -/
theorem c3_counterexample :
    (update_product stC3 1 (quantityOnly 99)).2.products.map (fun p => p.quantity) = [99] ∧
    stC3.products.map (fun p => p.quantity) = [5] ∧
    (update_product stC3 1 (quantityOnly 99)).2.transactions = [] := by
  decide

/-- Witness for C3 amended on the same concrete state. -/
theorem c3_witness :
    (update_product stC3 1 (quantityOnly 99)).1 = true ∧
    (∃ p', get_product_by_id (update_product stC3 1 (quantityOnly 99)).2 1 = some p' ∧
       p'.quantity = 99) ∧
    (update_product stC3 1 (quantityOnly 99)).2.transactions = stC3.transactions :=
  c3_update_can_change_quantity stC3 1 ⟨1, "a", "", "", 0, 5, 10, "", 0, 0⟩ 99 (by decide)

/-- C4 amended: `update_product` on an id that matches no product row,
with a non-empty field set, still returns True — exactly the success
indicator a successful update returns, so the miss is not distinguishable
by the caller — and modifies no product row (the UPDATE matches zero
rows). -/
theorem c4_update_unknown_id (st : DB) (pid : Int) (f : UpdateFields)
    (hnone : get_product_by_id st pid = none) (hf : f.isEmpty = false) :
    (update_product st pid f).1 = true ∧
    (update_product st pid f).2.products = st.products := by
  have hfil : st.products.filter (fun p => p.id == pid) = [] := by
    simpa [get_product_by_id, List.head?_eq_none_iff] using hnone
  have hall : ∀ p ∈ st.products, (p.id == pid) = false := by
    intro p hpmem
    have hnp := List.filter_eq_nil_iff.1 hfil p hpmem
    simpa using hnp
  refine ⟨by simp [update_product, hf], ?_⟩
  simp [update_product, hf]
  exact map_update_of_absent pid _ st.products hall

def stC4 : DB := ⟨[⟨1, "a", "", "", 0, 5, 10, "", 0, 0⟩], [], 2, 1, 0⟩

/-- Counterexample to C4 as stated: updating the name of the absent
product id 2 returns True — the success indicator — rather than any
distinguishable NotFound failure. -/
theorem c4_counterexample :
    (update_product stC4 2 ⟨some "x", none, none, none, none, none, none⟩).1 = true := by
  decide

/-- Witness for C4 amended on the same concrete state. -/
theorem c4_witness :
    (update_product stC4 2 ⟨some "x", none, none, none, none, none, none⟩).1 = true ∧
    (update_product stC4 2 ⟨some "x", none, none, none, none, none, none⟩).2.products
      = stC4.products :=
  c4_update_unknown_id stC4 2 ⟨some "x", none, none, none, none, none, none⟩
    (by decide) (by decide)

/-- C7: on an existing product with (non-negative) quantity n, an IN
adjustment of q1 followed by an OUT adjustment of q2 with 0 < q2 ≤ q1 both
succeed, leave the quantity at n + q1 - q2, and append exactly two ledger
entries to the transactions table, a STOCK_IN for q1 then a STOCK_OUT for
q2, in call order. -/
theorem c7_in_then_out (st : DB) (pid : Int) (p : Product) (q1 q2 : Int)
    (pr1 pr2 : ℚ) (n1 n2 : String)
    (hp : get_product_by_id st pid = some p) (hq : 0 ≤ p.quantity)
    (h1 : 0 < q1) (h2 : 0 < q2) (h21 : q2 ≤ q1) :
    (add_stock st pid q1 pr1 n1).1 = true ∧
    (remove_stock (add_stock st pid q1 pr1 n1).2 pid q2 pr2 n2).1 = true ∧
    (∃ p', get_product_by_id (remove_stock (add_stock st pid q1 pr1 n1).2 pid q2 pr2 n2).2 pid
        = some p' ∧ p'.quantity = p.quantity + q1 - q2) ∧
    (remove_stock (add_stock st pid q1 pr1 n1).2 pid q2 pr2 n2).2.transactions
      = st.transactions ++
        [⟨st.next_txn_id, pid, "STOCK_IN", q1, pr1, st.clock + 1, n1⟩,
         ⟨st.next_txn_id + 1, pid, "STOCK_OUT", q2, pr2, st.clock + 3, n2⟩] := by
  have hp1 : get_product_by_id (add_stock st pid q1 pr1 n1).2 pid
      = some (applyFields p (quantityOnly (p.quantity + q1)) st.clock) := by
    rw [add_stock_eq st pid p q1 pr1 n1 hp]
    exact head_filter_after_update st pid p _ st.clock hp
  have hge : ¬ (applyFields p (quantityOnly (p.quantity + q1)) st.clock).quantity < q2 := by
    simp only [applyFields, quantityOnly, Option.getD_some]
    omega
  refine ⟨?_, ?_,
    ⟨applyFields (applyFields p (quantityOnly (p.quantity + q1)) st.clock)
      (quantityOnly ((applyFields p (quantityOnly (p.quantity + q1)) st.clock).quantity - q2))
      (add_stock st pid q1 pr1 n1).2.clock, ?_, ?_⟩, ?_⟩
  · rw [add_stock_eq st pid p q1 pr1 n1 hp]
  · rw [remove_stock_eq _ pid _ q2 pr2 n2 hp1 hge]
  · rw [remove_stock_eq _ pid _ q2 pr2 n2 hp1 hge]
    exact head_filter_after_update _ pid _ _ _ hp1
  · simp [applyFields, quantityOnly]
  · rw [remove_stock_eq _ pid _ q2 pr2 n2 hp1 hge, add_stock_eq st pid p q1 pr1 n1 hp]
    simp

def stW7 : DB := ⟨[⟨1, "a", "", "", 0, 5, 10, "", 0, 0⟩], [], 2, 1, 0⟩

/-- Witness for C7: quantity 5, IN 3 then OUT 2 gives 6 and two ledger
entries in call order. -/
theorem c7_witness :
    (add_stock stW7 1 3 0 "").1 = true ∧
    (remove_stock (add_stock stW7 1 3 0 "").2 1 2 0 "").1 = true ∧
    (∃ p', get_product_by_id (remove_stock (add_stock stW7 1 3 0 "").2 1 2 0 "").2 1
        = some p' ∧ p'.quantity = 6) ∧
    (remove_stock (add_stock stW7 1 3 0 "").2 1 2 0 "").2.transactions
      = stW7.transactions ++
        [⟨1, 1, "STOCK_IN", 3, 0, 1, ""⟩, ⟨2, 1, "STOCK_OUT", 2, 0, 3, ""⟩] :=
  c7_in_then_out stW7 1 ⟨1, "a", "", "", 0, 5, 10, "", 0, 0⟩ 3 2 0 0 "" ""
    (by decide) (by decide) (by decide) (by decide) (by decide)

/-- Every row the history join produces references a product that exists
in the current products table (the inner join keeps nothing else). -/
theorem mem_joinHistory_product (st : DB) (row : HistoryRow) (hrow : row ∈ joinHistory st) :
    ∃ q ∈ st.products, q.id = row.product_id := by
  simp only [joinHistory, List.mem_flatMap, List.mem_map, List.mem_filter] at hrow
  obtain ⟨t, ht, p, ⟨hpmem, hpid⟩, heq⟩ := hrow
  refine ⟨p, hpmem, ?_⟩
  subst heq
  simpa using hpid

/-- Rows returned by `get_transaction_history` (with or without a filter)
always reference a live product. -/
theorem mem_history_product (st : DB) (pidq : Option Int) (row : HistoryRow)
    (hrow : row ∈ get_transaction_history st pidq) :
    ∃ q ∈ st.products, q.id = row.product_id := by
  apply mem_joinHistory_product st row
  cases pidq with
  | none =>
      have hperm := List.perm_insertionSort
        (fun a b : HistoryRow => b.date ≤ a.date) (joinHistory st)
      exact hperm.mem_iff.1 hrow
  | some pid =>
      by_cases hz : pid = 0
      · subst hz
        simp only [get_transaction_history, if_pos rfl, sortByDateDesc] at hrow
        have hperm := List.perm_insertionSort
          (fun a b : HistoryRow => b.date ≤ a.date) (joinHistory st)
        exact hperm.mem_iff.1 hrow
      · simp only [get_transaction_history, if_neg hz, sortByDateDesc] at hrow
        have hperm := List.perm_insertionSort (fun a b : HistoryRow => b.date ≤ a.date)
          ((joinHistory st).filter (fun r => r.product_id == pid))
        exact List.mem_of_mem_filter (hperm.mem_iff.1 hrow)

/-- C5 amended: `delete_product` removes only the matching product row —
every other row survives and the transactions table is untouched, so the
orphaned transactions are still durably stored — but a subsequent
unfiltered `get_transaction_history` does NOT return them: its inner join
with the products table only ever yields rows whose product still exists,
so the orphaned transactions are silently dropped from the result. -/
theorem c5_delete_orphans_dropped (st : DB) (pid : Int) :
    (delete_product st pid).2.transactions = st.transactions ∧
    (∀ q ∈ st.products, q.id ≠ pid → q ∈ (delete_product st pid).2.products) ∧
    (∀ row ∈ get_transaction_history (delete_product st pid).2 none,
       ∃ q ∈ (delete_product st pid).2.products, q.id = row.product_id) := by
  refine ⟨rfl, ?_, ?_⟩
  · intro q hq hne
    simp [delete_product, List.mem_filter, hq, hne]
  · intro row hrow
    exact mem_history_product (delete_product st pid).2 none row hrow

def stC5 : DB :=
  ⟨[⟨1, "a", "", "", 0, 5, 10, "", 0, 0⟩], [⟨1, 1, "INITIAL_STOCK", 5, 0, 0, ""⟩], 2, 2, 1⟩

/-- Counterexample to C5 as stated: after deleting product 1, its
transaction is still in the transactions table, yet the unfiltered
history query returns nothing at all — the orphaned transaction is
silently dropped instead of still being returned. -/
theorem c5_counterexample :
    (delete_product stC5 1).2.transactions = stC5.transactions ∧
    stC5.transactions ≠ [] ∧
    get_transaction_history (delete_product stC5 1).2 none = [] := by
  decide

def stW5 : DB :=
  ⟨[⟨1, "a", "", "", 0, 5, 10, "", 0, 0⟩, ⟨2, "b", "", "", 0, 7, 10, "", 0, 0⟩],
   [⟨1, 2, "INITIAL_STOCK", 7, 0, 0, ""⟩], 3, 2, 1⟩

/-- Witness for C5 amended: deleting product 1 keeps the table of
transactions, keeps product 2, and the one history row returned
references the still-existing product 2. -/
theorem c5_witness :
    (delete_product stW5 1).2.transactions = stW5.transactions ∧
    (∃ q ∈ (delete_product stW5 1).2.products,
       q.id = (⟨1, 2, "INITIAL_STOCK", 7, 0, 0, "", "b"⟩ : HistoryRow).product_id) :=
  ⟨(c5_delete_orphans_dropped stW5 1).1,
   (c5_delete_orphans_dropped stW5 1).2.2 ⟨1, 2, "INITIAL_STOCK", 7, 0, 0, "", "b"⟩
     (by decide)⟩

/-- Total value stored under a key of the categories dict (summed over
all entries with that key; the fold keeps keys unique, so this is the
value of the single entry when the key is present). -/
def valueAt : List (String × CategoryData) → String → ℚ
  | [], _ => 0
  | e :: cats, c => (if e.1 = c then e.2.value else 0) + valueAt cats c

theorem valueAt_append (l1 l2 : List (String × CategoryData)) (c : String) :
    valueAt (l1 ++ l2) c = valueAt l1 c + valueAt l2 c := by
  induction l1 with
  | nil => simp [valueAt]
  | cons e l1 ih => simp [valueAt, ih, add_assoc]

theorem valueAt_of_not_mem (cats : List (String × CategoryData)) (c : String)
    (h : c ∉ cats.map Prod.fst) : valueAt cats c = 0 := by
  induction cats with
  | nil => rfl
  | cons e cats ih =>
      simp only [List.map_cons, List.mem_cons] at h
      push_neg at h
      rw [valueAt, if_neg (fun hx => h.1 hx.symm), ih h.2, zero_add]

theorem any_key_iff (cats : List (String × CategoryData)) (c : String) :
    cats.any (fun e => e.1 == c) = true ↔ c ∈ cats.map Prod.fst := by
  simp only [List.any_eq_true, beq_iff_eq, List.mem_map]

/-- The per-entry increment of `bumpCategory` never changes a key. -/
theorem keys_bumpCategory (cats : List (String × CategoryData)) (c : String) (v : ℚ) :
    (bumpCategory cats c v).map Prod.fst = (ensureCategory cats c).map Prod.fst := by
  rw [bumpCategory, List.map_map]
  apply List.map_congr_left
  intro e _
  by_cases h : e.1 = c <;> simp [h]

/-- Keys of the dict after one loop iteration: unchanged when the bucket
already exists, extended by the new bucket otherwise. -/
theorem keys_ensureCategory (cats : List (String × CategoryData)) (c : String) :
    (ensureCategory cats c).map Prod.fst =
      if cats.any (fun e => e.1 == c) then cats.map Prod.fst else cats.map Prod.fst ++ [c] := by
  by_cases h : cats.any (fun e => e.1 == c) = true <;> simp [ensureCategory, h]

theorem nodup_keys_bumpCategory (cats : List (String × CategoryData)) (c : String) (v : ℚ)
    (hnd : (cats.map Prod.fst).Nodup) : ((bumpCategory cats c v).map Prod.fst).Nodup := by
  rw [keys_bumpCategory, keys_ensureCategory]
  by_cases h : cats.any (fun e => e.1 == c) = true
  · rw [if_pos h]; exact hnd
  · have hc : c ∉ cats.map Prod.fst := fun hmem => h ((any_key_iff cats c).2 hmem)
    rw [if_neg h]
    simp [List.nodup_append, hnd, hc]

/-- Effect of the in-place increment on the total stored under each key,
for a dict with unique keys: only a present bumped bucket gains v. -/
theorem valueAt_map_bump (c0 : String) (v : ℚ) :
    ∀ cats : List (String × CategoryData), (cats.map Prod.fst).Nodup →
      ∀ c, valueAt (cats.map
          (fun e => if e.1 == c0 then (e.1, ⟨e.2.count + 1, e.2.value + v⟩) else e)) c
        = valueAt cats c + (if c = c0 ∧ c0 ∈ cats.map Prod.fst then v else 0) := by
  intro cats
  induction cats with
  | nil => intro _ c; simp [valueAt]
  | cons e cats ih =>
      intro hnd c
      simp only [List.map_cons, List.nodup_cons] at hnd
      obtain ⟨he, hnd'⟩ := hnd
      have hih := ih hnd' c
      by_cases h0 : e.1 = c0
      · subst h0
        rw [List.map_cons, if_pos (beq_self_eq_true e.1)]
        simp only [valueAt]
        rw [hih]
        by_cases hc : e.1 = c
        · subst hc
          simp [he, add_comm, add_assoc, add_left_comm]
        · have hc' : ¬ c = e.1 := fun hx => hc hx.symm
          simp [hc, hc', he]
      · have hb : ¬ (e.1 == c0) = true := by simpa using h0
        have h0' : ¬ c0 = e.1 := fun hx => h0 hx.symm
        rw [List.map_cons, if_neg hb]
        simp only [valueAt]
        rw [hih]
        by_cases hcond : c = c0 ∧ c0 ∈ cats.map Prod.fst
        · have hcons : c = c0 ∧ c0 ∈ (e :: cats).map Prod.fst :=
            ⟨hcond.1, by simp [hcond.2]⟩
          rw [if_pos hcond, if_pos hcons]
          ring
        · have hx : ¬ (c = c0 ∧ c0 ∈ (e :: cats).map Prod.fst) := by
            rintro ⟨hcc, hmm⟩
            rw [List.map_cons] at hmm
            rcases List.mem_cons.1 hmm with hh | hh
            · exact h0' hh
            · exact hcond ⟨hcc, hh⟩
          rw [if_neg hcond, if_neg hx]
          ring

/-- Effect of one full loop iteration (ensure the bucket exists, then
increment it): the bucket gains exactly v, every other key keeps its
total. -/
theorem valueAt_bumpCategory (cats : List (String × CategoryData)) (c0 c : String) (v : ℚ)
    (hnd : (cats.map Prod.fst).Nodup) :
    valueAt (bumpCategory cats c0 v) c = valueAt cats c + (if c = c0 then v else 0) := by
  rw [bumpCategory]
  by_cases h : cats.any (fun e => e.1 == c0) = true
  · have hmem : c0 ∈ cats.map Prod.fst := (any_key_iff cats c0).1 h
    rw [ensureCategory, if_pos h, valueAt_map_bump c0 v cats hnd c]
    by_cases hc : c = c0
    · rw [if_pos ⟨hc, hmem⟩, if_pos hc]
    · rw [if_neg (fun hx => hc hx.1), if_neg hc]
  · have hmem : c0 ∉ cats.map Prod.fst := fun hx => h ((any_key_iff cats c0).2 hx)
    rw [ensureCategory, if_neg h, List.map_append, valueAt_append,
      valueAt_map_bump c0 v cats hnd c, if_neg (fun hx => hmem hx.2)]
    by_cases hc : c = c0
    · subst hc
      simp [valueAt]
    · have hc' : ¬ c0 = c := fun hx => hc hx.symm
      simp [valueAt, hc, hc']

/-- Invariant of the report category loop: starting from a dict with
unique keys, the loop keeps keys unique and adds to each bucket exactly
the price-times-quantity mass of the products falling in it — with no
rounding anywhere. -/
theorem categories_fold_invariant :
    ∀ (l : List Product) (acc : List (String × CategoryData)),
      (acc.map Prod.fst).Nodup →
      (((l.foldl (fun cats p => bumpCategory cats (bucketOf p) (p.price * (p.quantity : ℚ))) acc).map
          Prod.fst).Nodup ∧
       ∀ c, valueAt (l.foldl (fun cats p => bumpCategory cats (bucketOf p) (p.price * (p.quantity : ℚ))) acc) c
          = valueAt acc c + catSum l c) := by
  intro l
  induction l with
  | nil =>
      intro acc hnd
      exact ⟨hnd, fun c => by simp [catSum]⟩
  | cons p l ih =>
      intro acc hnd
      rw [List.foldl_cons]
      obtain ⟨hnd2, hval⟩ := ih (bumpCategory acc (bucketOf p) (p.price * (p.quantity : ℚ)))
        (nodup_keys_bumpCategory acc (bucketOf p) _ hnd)
      refine ⟨hnd2, fun c => ?_⟩
      rw [hval c, valueAt_bumpCategory acc (bucketOf p) c _ hnd]
      have hcat : catSum (p :: l) c
          = (if bucketOf p = c then p.price * (p.quantity : ℚ) else 0) + catSum l c := by
        by_cases hb : bucketOf p = c <;> simp [catSum, List.filter_cons, hb]
      rw [hcat]
      by_cases hb : c = bucketOf p
      · rw [if_pos hb, if_pos hb.symm]; ring
      · rw [if_neg hb, if_neg (fun hx => hb hx.symm)]; ring

/-- With unique keys, an entry of the dict carries the whole total stored
under its key. -/
theorem entry_value_eq_valueAt :
    ∀ (cats : List (String × CategoryData)), (cats.map Prod.fst).Nodup →
      ∀ (c : String) (d : CategoryData), (c, d) ∈ cats → d.value = valueAt cats c := by
  intro cats
  induction cats with
  | nil => intro _ c d h; simp at h
  | cons e cats ih =>
      intro hnd c d hmem
      simp only [List.map_cons, List.nodup_cons] at hnd
      obtain ⟨he, hnd'⟩ := hnd
      rcases List.mem_cons.1 hmem with heq | hmem'
      · subst heq
        rw [valueAt, if_pos rfl,
          valueAt_of_not_mem cats c (by simpa using he), add_zero]
      · have hkey : c ∈ cats.map Prod.fst := List.mem_map.2 ⟨(c, d), hmem', rfl⟩
        have hne : e.1 ≠ c := fun hx => he (hx ▸ hkey)
        rw [valueAt, if_neg hne, zero_add]
        exact ih hnd' c d hmem'

theorem catSum_perm (l1 l2 : List Product) (h : List.Perm l1 l2) (c : String) :
    catSum l1 c = catSum l2 c :=
  List.Perm.sum_eq (List.Perm.map _ (List.Perm.filter _ h))

theorem sumValue_perm (l1 l2 : List Product) (h : List.Perm l1 l2) :
    sumValue l1 = sumValue l2 :=
  List.Perm.sum_eq (List.Perm.map _ h)

/-- Two-product state taken from the sample data of the source (Laptop
999.99 at quantity 15, Notebook 3.99 at quantity 2). -/
def stC8w : DB :=
  ⟨[⟨1, "Laptop", "Gaming laptop", "Electronics", 999.99, 15, 5, "TechCorp", 0, 0⟩,
    ⟨2, "Notebook", "A4 notebook", "Stationery", 3.99, 2, 10, "PaperCorp", 0, 0⟩],
   [], 3, 1, 0⟩

/-- C8 amended: the report's grand total is the sum of price times
quantity over all products, rounded to 2 decimal places by Python's
`round` — which sends exact halves to the even choice (banker's
rounding), not half-up — while each per-category total is exactly the
unrounded sum of price times quantity over that bucket; on the example
state with products 999.99 at 15 and 3.99 at 2 the total is 15007.83. -/
theorem c8_report_value_rounding :
    (∀ st : DB,
      (generate_inventory_report st).total_inventory_value = round2 (sumValue st.products) ∧
      ∀ (c : String) (d : CategoryData),
        (c, d) ∈ (generate_inventory_report st).categories → d.value = catSum st.products c) ∧
    (generate_inventory_report stC8w).total_inventory_value = 15007.83 := by
  constructor
  · intro st
    constructor
    · show round2 (((get_all_products st).map (fun p => p.price * (p.quantity : ℚ))).sum)
        = round2 (sumValue st.products)
      congr 1
      exact sumValue_perm _ _ (List.perm_insertionSort _ st.products)
    · intro c d hcd
      have hinv := categories_fold_invariant (get_all_products st) [] (by simp)
      have hv : d.value = valueAt ((get_all_products st).foldl
          (fun cats p => bumpCategory cats (bucketOf p) (p.price * (p.quantity : ℚ))) []) c :=
        entry_value_eq_valueAt _ hinv.1 c d hcd
      have hz : valueAt [] c = 0 := rfl
      rw [hv, hinv.2 c, hz, zero_add]
      exact catSum_perm _ _ (List.perm_insertionSort _ st.products) c
  · have hcmp : ("Laptop" : String) ≤ "Notebook" := by simp; decide
    simp [generate_inventory_report, get_all_products, stC8w,
      List.insertionSort, List.orderedInsert, hcmp]
    norm_num [round2, roundHalfEven]

def stC8 : DB := ⟨[⟨1, "m", "", "Misc", 0.125, 1, 0, "", 0, 0⟩], [], 2, 1, 0⟩

/-- Counterexample to C8 as stated: a single product of price 0.125 and
quantity 1 (an exact binary64 value, so the float model is exact here).
The code reports 0.12 — Python `round` sends the tie at 12.5 down to the
even choice — while half-up rounding, as the claim states, would give
0.13. -/
theorem c8_counterexample :
    (generate_inventory_report stC8).total_inventory_value = 12/100 ∧
    spec_round2_half_up (sumValue stC8.products) = 13/100 ∧
    (generate_inventory_report stC8).total_inventory_value
      ≠ spec_round2_half_up (sumValue stC8.products) := by
  have ha : (generate_inventory_report stC8).total_inventory_value = 12/100 := by
    simp [generate_inventory_report, get_all_products, stC8,
      List.insertionSort, List.orderedInsert]
    norm_num [round2, roundHalfEven]
  have hb : spec_round2_half_up (sumValue stC8.products) = 13/100 := by
    norm_num [spec_round2_half_up, sumValue, stC8]
  refine ⟨ha, hb, ?_⟩
  rw [ha, hb]
  norm_num

/-- Witness for C8 amended at the example state: the total equals the
rounded sum, and the Electronics bucket carries the unrounded 14999.85. -/
theorem c8_witness :
    (generate_inventory_report stC8w).total_inventory_value = round2 (sumValue stC8w.products) ∧
    (14999.85 : ℚ) = catSum stC8w.products "Electronics" :=
  ⟨(c8_report_value_rounding.1 stC8w).1,
   (c8_report_value_rounding.1 stC8w).2 "Electronics" ⟨1, 14999.85⟩ (by
      have hcmp : ("Laptop" : String) ≤ "Notebook" := by simp; decide
      simp [generate_inventory_report, get_all_products, stC8w,
        List.insertionSort, List.orderedInsert, hcmp, bumpCategory, ensureCategory, bucketOf]
      norm_num)⟩

/-- C9: `get_low_stock_products` returns a product row exactly when its
quantity is at most its minimum stock; in particular a row with quantity
equal to `min_stock` is included. -/
theorem c9_low_stock_iff (st : DB) (p : Product) :
    p ∈ get_low_stock_products st ↔ p ∈ st.products ∧ p.quantity ≤ p.min_stock := by
  simp [get_low_stock_products, List.mem_filter]

/-- C10: passing product id 0 to `get_transaction_history` takes the
falsy branch of `if product_id:` and returns the full unfiltered history,
identical to passing None. -/
theorem c10_history_zero_unfiltered (st : DB) :
    get_transaction_history st (some 0) = get_transaction_history st none := by
  simp [get_transaction_history]

end InventorySystem
